import Mathlib

/-!
Verification of the chunked-recording store and lifecycle manager
(`RecordingManager` in `src/recording.js`).

The manager state, the IndexedDB-backed chunk store and the operations on
them are embedded shallowly: the two IndexedDB object stores become lists of
records with put-by-primary-key semantics, callback-chained asynchronous I/O
becomes plain state passing, wall-clock reads (`Date.now()`,
`new Date().toISOString()`) become explicit `nowMs`/`nowIso` parameters, and
thrown `Error`s become `Except` values classified by throw site.
-/

/-- Fixed segment duration in milliseconds (`CONFIG.CHUNK_DURATION_MS = 10 * 60 * 1000`). -/
def CHUNK_DURATION_MS : Nat := 10 * 60 * 1000

/-- Grace period before the cleanup sweep (`CONFIG.CLEANUP_DELAY_MS = 5 * 60 * 1000`). -/
def CLEANUP_DELAY_MS : Nat := 5 * 60 * 1000

/-- Opaque binary payload; the manager only ever reads its `size`. -/
structure Blob where
  size : Nat
deriving Repr, DecidableEq

/-- Timeline event: type tag, offset from exam start in milliseconds (`timestamp`),
wall-clock ISO string (`time`) and opaque details, as built by `addEvent`. -/
structure Event where
  type : String
  timestamp : Nat
  time : String
  details : Option String
deriving Repr, DecidableEq

/-- The chunk-metadata object built by `registerChunk` (`chunkData` in the source);
it is what is returned, and what is pushed onto the in-memory `chunkMetadata` ledger.
It does not carry the payload. -/
structure ChunkData where
  chunkId : String
  chunkIndex : Nat
  roomId : String
  studentId : String
  startTime : Int
  endTime : Int
  duration : Int
  status : String
  events : List Event
deriving Repr, DecidableEq

/-- A chunk record as persisted in the IndexedDB `chunks` store (keyPath `chunkId`):
the spread of the `chunkData` fields plus `blob`, `sizeBytes` and `savedAt`.
`uploadedUrl` and `updatedAt` are absent until `updateChunkStatus` first touches
the record, hence `Option` with default `none`. -/
structure Chunk where
  chunkId : String
  chunkIndex : Nat
  roomId : String
  studentId : String
  startTime : Int
  endTime : Int
  duration : Int
  status : String
  events : List Event
  blob : Blob
  sizeBytes : Nat
  savedAt : String
  uploadedUrl : Option String := none
  updatedAt : Option String := none
deriving Repr, DecidableEq

/-- A session-metadata record in the `metadata` object store (keyPath `roomId`). -/
structure Metadata where
  roomId : String
  studentId : Option String
  examStartTime : Option Nat
  examEndTime : Option Nat := none
  events : List Event
  totalChunks : Option Nat := none
  status : String
  updatedAt : String
deriving Repr, DecidableEq

/-- In-memory manager state plus the durable stores it talks to.
`cleanupTimers` keeps the room ids that currently own a live timer handle
(the source keeps a `roomId -> timerId` map; only presence of the handle is
observable). `chromeLocalRoomId` is the `roomId` value in `chrome.storage.local`,
written at exam start by the background script and read back by the
session-rehydration path of the upload operations. -/
structure MState where
  db : List Chunk
  meta : List Metadata
  isRecording : Bool
  examRoomId : Option String
  studentId : Option String
  examStartTime : Option Nat
  events : List Event
  chunkMetadata : List ChunkData
  cleanupTimers : List String
  chromeLocalRoomId : Option String
deriving Repr, DecidableEq

/-- A freshly constructed manager (the singleton right after the constructor ran). -/
def initialManager : MState :=
  { db := [], meta := [], isRecording := false, examRoomId := none, studentId := none,
    examStartTime := none, events := [], chunkMetadata := [], cleanupTimers := [],
    chromeLocalRoomId := none }

/-- JavaScript template-literal rendering of a possibly-null string: null prints as "null". -/
def jsStr : Option String → String
  | none => "null"
  | some s => s

/-- JavaScript truthiness of the optional `url` argument of `updateChunkStatus`:
null/undefined and the empty string are falsy, every other string is truthy. -/
def jsTruthy : Option String → Bool
  | none => false
  | some s => s != ""

/-- Chunk primary key, the template literal `roomId_studentId_chunkIndex`. -/
def chunkKey (roomId studentId : Option String) (chunkIndex : Nat) : String :=
  jsStr roomId ++ "_" ++ jsStr studentId ++ "_" ++ toString chunkIndex

/-- IndexedDB `store.put` on the chunks store: replaces the record with the same
primary key `chunkId` if one exists, otherwise inserts. -/
def putChunk (db : List Chunk) (c : Chunk) : List Chunk :=
  db.filter (fun x => x.chunkId != c.chunkId) ++ [c]

/-- The comparator of `getChunksByRoom` (`(a, b) => a.chunkIndex - b.chunkIndex`):
ascending chunk index. -/
def chunkLe (a b : Chunk) : Prop := a.chunkIndex ≤ b.chunkIndex

instance : DecidableRel chunkLe := fun a b => Nat.decLe a.chunkIndex b.chunkIndex

instance : IsTotal Chunk chunkLe := ⟨fun a b => Nat.le_total a.chunkIndex b.chunkIndex⟩

instance : IsTrans Chunk chunkLe := ⟨fun _ _ _ h1 h2 => Nat.le_trans h1 h2⟩

/-- `getChunksByRoom`: every record whose `roomId` matches, sorted by `chunkIndex`
ascending (a stable sort, as `Array.prototype.sort` is). -/
def getChunksByRoom (db : List Chunk) (roomId : String) : List Chunk :=
  List.insertionSort chunkLe (db.filter (fun c => c.roomId == roomId))

/-- `updateChunkStatus`: read-modify-write of a single record, rejecting when the
key is absent. The `url` argument is applied only when it is truthy
(`if (url) chunk.uploadedUrl = url`), so a null or empty url leaves the
previously recorded `uploadedUrl` in place. -/
def updateChunkStatus (db : List Chunk) (chunkId status : String) (url : Option String)
    (nowIso : String) : Except String (List Chunk × Chunk) :=
  match db.find? (fun c => c.chunkId == chunkId) with
  | none => .error ("Chunk " ++ chunkId ++ " not found")
  | some c =>
    let c2 : Chunk :=
      { c with status := status,
               uploadedUrl := if jsTruthy url then url else c.uploadedUrl,
               updatedAt := some nowIso }
    .ok (putChunk db c2, c2)

/-- `deleteChunksByRoom`: deletes, by primary key, every record returned by
`getChunksByRoom`, resolving the number of deletions. -/
def deleteChunksByRoom (db : List Chunk) (roomId : String) : List Chunk × Nat :=
  let cs := getChunksByRoom db roomId
  (db.filter (fun x => !(cs.any (fun c => c.chunkId == x.chunkId))), cs.length)

/-- `deleteUnuploadedChunks`: deletes, by primary key, the room's records whose
status differs from `uploaded`, resolving the number of deletions. -/
def deleteUnuploadedChunks (db : List Chunk) (roomId : String) : List Chunk × Nat :=
  let cs := getChunksByRoom db roomId
  let unuploaded := cs.filter (fun c => c.status != "uploaded")
  (db.filter (fun x => !(unuploaded.any (fun c => c.chunkId == x.chunkId))), unuploaded.length)

/-- IndexedDB `store.put` on the metadata store (keyPath `roomId`). -/
def putMeta (ms : List Metadata) (m : Metadata) : List Metadata :=
  ms.filter (fun x => x.roomId != m.roomId) ++ [m]

/-- `saveChunk`: builds the durable record (chunk data spread plus `blob`,
`sizeBytes`, `savedAt`) and puts it into the chunks store. -/
def saveChunk (db : List Chunk) (cd : ChunkData) (blob : Blob) (nowIso : String) :
    List Chunk × Chunk :=
  let record : Chunk :=
    { chunkId := cd.chunkId, chunkIndex := cd.chunkIndex, roomId := cd.roomId,
      studentId := cd.studentId, startTime := cd.startTime, endTime := cd.endTime,
      duration := cd.duration, status := cd.status, events := cd.events,
      blob := blob, sizeBytes := blob.size, savedAt := nowIso }
  (putChunk db record, record)

/-- `initRecording`: resets the in-memory session state, seeds the event log with
the `exam_start` marker at offset 0, and persists the initial session metadata. -/
def initRecording (st : MState) (roomId studentId : String) (nowMs : Nat) (nowIso : String) :
    MState × Nat :=
  let evs : List Event := [{ type := "exam_start", timestamp := 0, time := nowIso, details := none }]
  let st2 :=
    { st with examRoomId := some roomId, studentId := some studentId,
              examStartTime := some nowMs, events := evs, chunkMetadata := [],
              isRecording := true }
  let m : Metadata :=
    { roomId := roomId, studentId := some studentId, examStartTime := some nowMs,
      events := evs, status := "recording", updatedAt := nowIso }
  ({ st2 with meta := putMeta st2.meta m }, nowMs)

/-- `addEvent`: a no-op when not recording; otherwise appends an event stamped with
the offset from exam start. -/
def addEvent (st : MState) (eventType : String) (details : Option String) (nowMs : Nat)
    (nowIso : String) : MState × Option Event :=
  if st.isRecording then
    let ev : Event :=
      { type := eventType, timestamp := nowMs - st.examStartTime.getD 0, time := nowIso,
        details := details }
    ({ st with events := st.events ++ [ev] }, some ev)
  else (st, none)

/-- `registerChunk`: builds the chunk key from the current (possibly null) session
identifiers, selects the events whose offset falls inside the chunk's window
`[i*D, (i+1)*D)`, persists the record via `saveChunk`, and appends the chunk data
to the in-memory `chunkMetadata` ledger. The source performs no session-activity
check before doing any of this. -/
def registerChunk (st : MState) (chunkIndex : Nat) (startTime endTime duration : Int)
    (blob : Blob) (nowIso : String) : MState × ChunkData :=
  let cid := chunkKey st.examRoomId st.studentId chunkIndex
  let chunkStartMs := chunkIndex * CHUNK_DURATION_MS
  let chunkEndMs := (chunkIndex + 1) * CHUNK_DURATION_MS
  let chunkEvents := st.events.filter
    (fun e => decide (chunkStartMs ≤ e.timestamp) && decide (e.timestamp < chunkEndMs))
  let cd : ChunkData :=
    { chunkId := cid, chunkIndex := chunkIndex, roomId := jsStr st.examRoomId,
      studentId := jsStr st.studentId, startTime := startTime, endTime := endTime,
      duration := duration, status := "stored", events := chunkEvents }
  let saved := saveChunk st.db cd blob nowIso
  ({ st with db := saved.1, chunkMetadata := st.chunkMetadata ++ [cd] }, cd)

/-- `stopRecording`: clears the recording flag first, so the subsequent
`addEvent("exam_end")` call is a no-op; persists the final metadata when a room id
is set, and returns `totalChunks`, the length of the in-memory ledger. -/
def stopRecording (st : MState) (nowMs : Nat) (nowIso : String) : MState × Nat :=
  let st1 := { st with isRecording := false }
  let st2 := (addEvent st1 "exam_end" none nowMs nowIso).1
  let total := st2.chunkMetadata.length
  let st3 :=
    match st2.examRoomId with
    | some r =>
      let m : Metadata :=
        { roomId := r, studentId := st2.studentId, examStartTime := st2.examStartTime,
          examEndTime := some nowMs, events := st2.events, totalChunks := some total,
          status := "ended", updatedAt := nowIso }
      { st2 with meta := putMeta st2.meta m }
    | none => st2
  (st3, total)

/-- Error taxonomy of the upload path. The source throws plain `Error`s; the two
throw sites are classified per the specification (`InvalidState` for a missing
session, `NotFound` for a missing chunk), with the message preserved. -/
inductive RecErr where
  | stateError : String → RecErr
  | notFound : String → RecErr
deriving Repr, DecidableEq

/-- Session-id resolution used by the upload operations: the in-memory
`examRoomId` pointer first; when it is lost (service-worker restart), the durably
stored room id, adopted into memory when present. -/
def resolveRoomId (st : MState) : MState × Option String :=
  match st.examRoomId with
  | some r => (st, some r)
  | none =>
    match st.chromeLocalRoomId with
    | some r => ({ st with examRoomId := some r }, some r)
    | none => (st, none)

/-- The payload-bearing view of a chunk returned by `getChunkForUpload`,
assembled from the record as it was found (before the status update). -/
structure UploadView where
  chunkId : String
  chunkIndex : Nat
  roomId : String
  studentId : String
  startTime : Int
  endTime : Int
  duration : Int
  events : List Event
  blob : Blob
  sizeBytes : Nat
deriving Repr, DecidableEq

/-- `getChunkForUpload`: resolves the room id (rehydrating it from durable storage
when the in-memory pointer is lost), throws when none can be resolved; looks the
chunk up by index within the room, throws when absent; otherwise unconditionally
marks the record `uploading` and returns the view built from the found record. -/
def getChunkForUpload (st : MState) (chunkIndex : Nat) (nowIso : String) :
    MState × Except RecErr UploadView :=
  let res := resolveRoomId st
  match res.2 with
  | none => (res.1, .error (.stateError "No active exam room - cannot upload chunk"))
  | some r =>
    let chunks := getChunksByRoom res.1.db r
    match chunks.find? (fun c => c.chunkIndex == chunkIndex) with
    | none => (res.1, .error (.notFound ("Chunk " ++ toString chunkIndex ++ " not found")))
    | some c =>
      match updateChunkStatus res.1.db c.chunkId "uploading" none nowIso with
      | .error e => (res.1, .error (.notFound e))
      | .ok p =>
        ({ res.1 with db := p.1 },
         .ok { chunkId := c.chunkId, chunkIndex := c.chunkIndex, roomId := c.roomId,
               studentId := c.studentId, startTime := c.startTime, endTime := c.endTime,
               duration := c.duration, events := c.events, blob := c.blob,
               sizeBytes := c.sizeBytes })

/-- `markChunkUploaded` (the confirm-uploaded operation): `updateChunkStatus` to
`uploaded` with the supplied reference url. -/
def markChunkUploaded (db : List Chunk) (chunkId url : String) (nowIso : String) :
    Except String (List Chunk) :=
  match updateChunkStatus db chunkId "uploaded" (some url) nowIso with
  | .error e => .error e
  | .ok p => .ok p.1

/-- A sequence of confirm-uploaded calls on one chunk, one per reference in order. -/
def confirmAll (db : List Chunk) (chunkId : String) (nowIso : String) :
    List String → Except String (List Chunk)
  | [] => .ok db
  | r :: rs =>
    match markChunkUploaded db chunkId r nowIso with
    | .error e => .error e
    | .ok db2 => confirmAll db2 chunkId nowIso rs

/-- `scheduleCleanup`: clears any existing timer for the room (debounce) and
starts a new one; returns the `{scheduled: true, delayMs}` acknowledgement. -/
def scheduleCleanup (st : MState) (roomId : String) (delayMs : Nat) :
    MState × (Bool × Nat) :=
  ({ st with cleanupTimers := st.cleanupTimers.filter (fun x => x != roomId) ++ [roomId] },
   (true, delayMs))

/-- The body of the scheduled cleanup callback, fired when the timer elapses.
`storageFault` models the catch branch: a storage failure during the sweep is
caught and logged, leaving every piece of state — the timer handle included —
untouched. On the no-chunk path the callback returns before reaching the
`delete this.cleanupTimers[roomId]` statement, so the handle survives there too;
only the two successful delete paths clear it. -/
def cleanupFire (st : MState) (roomId : String) (storageFault : Bool) : MState :=
  if storageFault then st
  else
    let chunks := getChunksByRoom st.db roomId
    if chunks.isEmpty then st
    else if !(chunks.any (fun c => c.status == "uploaded")) then
      { st with db := (deleteChunksByRoom st.db roomId).1,
                cleanupTimers := st.cleanupTimers.filter (fun x => x != roomId) }
    else
      { st with db := (deleteUnuploadedChunks st.db roomId).1,
                cleanupTimers := st.cleanupTimers.filter (fun x => x != roomId) }

/-- `cancelCleanup`: clears a pending timer and reports whether one existed. -/
def cancelCleanup (st : MState) (roomId : String) : MState × Bool :=
  if st.cleanupTimers.contains roomId then
    ({ st with cleanupTimers := st.cleanupTimers.filter (fun x => x != roomId) }, true)
  else (st, false)

/-- One `registerChunk` request: index, timing metadata, payload and the clock
reading at save time. -/
structure RegReq where
  chunkIndex : Nat
  startTime : Int
  endTime : Int
  duration : Int
  blob : Blob
  nowIso : String
deriving Repr, DecidableEq

/-- Runs a sequence of `registerChunk` calls against the manager state. -/
def applyRegisters (st : MState) : List RegReq → MState
  | [] => st
  | r :: rs =>
    applyRegisters (registerChunk st r.chunkIndex r.startTime r.endTime r.duration
      r.blob r.nowIso).1 rs

/-- The chunks store never holds two records with the same primary key; this is
the IndexedDB keyPath invariant, preserved by every `putChunk`. -/
def nodupIds (db : List Chunk) : Prop := (db.map Chunk.chunkId).Nodup

instance (db : List Chunk) : Decidable (nodupIds db) := by
  unfold nodupIds; infer_instance

/-- Observation of a chunk after a sequence of confirm-uploaded calls: its final
status and recorded reference, `none` when the sequence failed or the chunk is gone. -/
def finalRef (db : List Chunk) (chunkId nowIso : String) (refs : List String) :
    Option (String × Option String) :=
  match confirmAll db chunkId nowIso refs with
  | .error _ => none
  | .ok db2 => (db2.find? (fun x => x.chunkId == chunkId)).map (fun c => (c.status, c.uploadedUrl))

/-- Concrete event inside window 1 (offset 650000 ms, D = 600000 ms). -/
def evW : Event := { type := "cheat_attempt", timestamp := 650000, time := "T", details := none }

/-- Concrete recording session holding the single event `evW`. -/
def stW : MState :=
  { db := [], meta := [], isRecording := true, examRoomId := some "examA",
    studentId := some "stud1", examStartTime := some 0, events := [evW],
    chunkMetadata := [], cleanupTimers := [], chromeLocalRoomId := none }

/-- Concrete chunk record in status `stored` with no reference recorded yet. -/
def c0 : Chunk :=
  { chunkId := "k", chunkIndex := 0, roomId := "examA", studentId := "stud1",
    startTime := 0, endTime := 0, duration := 0, status := "stored", events := [],
    blob := ⟨3⟩, sizeBytes := 3, savedAt := "s" }

/-- Concrete uploaded chunk of room `examA` with a recorded reference. -/
def up1 : Chunk :=
  { c0 with chunkId := "examA_stud1_0", chunkIndex := 0, status := "uploaded",
            uploadedUrl := some "u" }

/-- Concrete stored (never uploaded) chunk of room `examA` at index 1. -/
def sd1 : Chunk := { c0 with chunkId := "examA_stud1_1", chunkIndex := 1 }

/-- A manager with a live cleanup timer for `examA` and an empty chunk store. -/
def stT : MState := { initialManager with cleanupTimers := ["examA"] }

/-- A manager owning one uploaded and one stored chunk of room `examA`,
with a live cleanup timer. -/
def stC2 : MState := { initialManager with db := [sd1, up1], cleanupTimers := ["examA"] }

/-- A manager with an active room whose store holds an uploaded and a stored chunk. -/
def stC5 : MState := { initialManager with examRoomId := some "examA", db := [up1, sd1] }

/-- A manager with an active session whose store already holds index 0. -/
def stC8 : MState :=
  { initialManager with examRoomId := some "examA", studentId := some "stud1",
                        isRecording := true, examStartTime := some 0, db := [up1] }

/-- A concrete registration request for chunk index 0. -/
def req0 : RegReq :=
  { chunkIndex := 0, startTime := 0, endTime := 1, duration := 1, blob := ⟨4⟩, nowIso := "n" }

/-! ## General lemmas about the store primitives -/

theorem find?_eq_of_mem_unique {α : Type} {p : α → Bool} {l : List α} {c : α}
    (hc : c ∈ l) (hp : p c = true) (huniq : ∀ x ∈ l, p x = true → x = c) :
    l.find? p = some c := by
  have hs : (l.find? p).isSome = true := List.find?_isSome.mpr ⟨c, hc, hp⟩
  obtain ⟨a, ha⟩ := Option.isSome_iff_exists.mp hs
  have hpa := List.find?_some ha
  have hma := List.mem_of_find?_eq_some ha
  rw [ha, huniq a hma hpa]

theorem mem_putChunk_same_id {db : List Chunk} {c2 x : Chunk}
    (hx : x ∈ putChunk db c2) (hid : x.chunkId = c2.chunkId) : x = c2 := by
  unfold putChunk at hx
  rcases List.mem_append.mp hx with h | h
  · have hb := (List.mem_filter.mp h).2
    rw [bne_iff_ne] at hb
    exact absurd hid hb
  · simpa using h

theorem find?_putChunk (db : List Chunk) (c2 : Chunk) :
    (putChunk db c2).find? (fun x => x.chunkId == c2.chunkId) = some c2 := by
  unfold putChunk
  rw [List.find?_append]
  have h1 : (db.filter (fun x => x.chunkId != c2.chunkId)).find?
      (fun x => x.chunkId == c2.chunkId) = none := by
    rw [List.find?_eq_none]
    intro x hx
    have hb := (List.mem_filter.mp hx).2
    rw [bne_iff_ne] at hb
    simpa using hb
  rw [h1]
  simp

theorem filter_putChunk_self (db : List Chunk) (c2 : Chunk) :
    (putChunk db c2).filter (fun x => x.chunkId == c2.chunkId) = [c2] := by
  unfold putChunk
  rw [List.filter_append]
  have h1 : (db.filter (fun x => x.chunkId != c2.chunkId)).filter
      (fun x => x.chunkId == c2.chunkId) = [] := by
    rw [List.filter_eq_nil_iff]
    intro x hx
    have hb := (List.mem_filter.mp hx).2
    rw [bne_iff_ne] at hb
    simpa using hb
  rw [h1]
  simp

theorem nodupIds_putChunk {db : List Chunk} (c2 : Chunk) (h : nodupIds db) :
    nodupIds (putChunk db c2) := by
  unfold nodupIds putChunk
  rw [List.map_append, List.nodup_append]
  refine ⟨?_, List.nodup_singleton _, ?_⟩
  · exact ((List.filter_sublist db).map Chunk.chunkId).nodup h
  · intro a ha hb
    obtain ⟨x, hx, hxa⟩ := List.mem_map.mp ha
    have hbne := (List.mem_filter.mp hx).2
    rw [bne_iff_ne] at hbne
    simp only [List.map_cons, List.map_nil, List.mem_singleton] at hb
    exact hbne (hxa.trans hb)

theorem mem_getChunksByRoom {db : List Chunk} {r : String} {x : Chunk} :
    x ∈ getChunksByRoom db r ↔ x ∈ db ∧ x.roomId = r := by
  unfold getChunksByRoom
  rw [(List.perm_insertionSort chunkLe _).mem_iff, List.mem_filter]
  simp

theorem resolveRoomId_db (st : MState) : (resolveRoomId st).1.db = st.db := by
  unfold resolveRoomId
  cases st.examRoomId <;> [cases st.chromeLocalRoomId; skip] <;> rfl

theorem resolveRoomId_of_none (st : MState) (h : (resolveRoomId st).2 = none) :
    (resolveRoomId st).1 = st := by
  unfold resolveRoomId at h ⊢
  cases hh : st.examRoomId with
  | some r => simp [hh] at h
  | none =>
    cases hc : st.chromeLocalRoomId with
    | some r => simp [hh, hc] at h
    | none => simp [hh, hc]

/-! ## C1: event-to-chunk window assignment -/

/-- C1: an event appended before chunk registration appears in the registered
chunk's events list iff its offset lies in the window `[i*D, (i+1)*D)` with
`D = CHUNK_DURATION_MS`; consequently it appears for at most one chunk index, and
the selection for index `i` is unchanged by first registering a chunk with
another index, so it is independent of registration order. -/
theorem registerChunk_event_window (st : MState) (e : Event) (i j : Nat)
    (s1 e1 d1 s2 e2 d2 : Int) (b1 b2 : Blob) (n1 n2 : String)
    (he : e ∈ st.events) :
    (e ∈ (registerChunk st i s1 e1 d1 b1 n1).2.events ↔
      i * CHUNK_DURATION_MS ≤ e.timestamp ∧ e.timestamp < (i + 1) * CHUNK_DURATION_MS)
    ∧ (i ≠ j → ¬ (e ∈ (registerChunk st i s1 e1 d1 b1 n1).2.events ∧
        e ∈ (registerChunk st j s2 e2 d2 b2 n2).2.events))
    ∧ (registerChunk (registerChunk st j s2 e2 d2 b2 n2).1 i s1 e1 d1 b1 n1).2.events =
      (registerChunk st i s1 e1 d1 b1 n1).2.events := by
  have hmem : ∀ (k : Nat) (sa ea da : Int) (bb : Blob) (nn : String),
      e ∈ (registerChunk st k sa ea da bb nn).2.events ↔
        k * CHUNK_DURATION_MS ≤ e.timestamp ∧ e.timestamp < (k + 1) * CHUNK_DURATION_MS := by
    intro k sa ea da bb nn
    simp [registerChunk, List.mem_filter, he]
  refine ⟨hmem i s1 e1 d1 b1 n1, ?_, rfl⟩
  intro hij hboth
  have h1 := (hmem i s1 e1 d1 b1 n1).mp hboth.1
  have h2 := (hmem j s2 e2 d2 b2 n2).mp hboth.2
  have hD : CHUNK_DURATION_MS = 600000 := rfl
  rw [hD] at h1 h2
  omega

/-- Witness for C1: the event at offset 650000 ms lands in chunk 1's events list
and not simultaneously in chunk 0's. -/
theorem registerChunk_event_window_witness :
    evW ∈ (registerChunk stW 1 0 0 0 ⟨5⟩ "t").2.events ∧
    ¬ (evW ∈ (registerChunk stW 1 0 0 0 ⟨5⟩ "t").2.events ∧
       evW ∈ (registerChunk stW 0 0 0 1 ⟨6⟩ "u").2.events) := by
  have h := registerChunk_event_window stW evW 1 0 0 0 0 0 0 1 ⟨5⟩ ⟨6⟩ "t" "u" (by decide)
  exact ⟨h.1.mpr (by decide), h.2.1 (by decide)⟩

/-! ## C3: registerChunk with no active session -/

/-- C3 counterexample: on a fresh manager with no active session, `registerChunk`
does not fail with any error; it constructs and persists a chunk record keyed
`null_null_0`, contradicting the claim that it fails with a StateError and never
persists a record in that case. -/
theorem registerChunk_no_session_cex :
    initialManager.isRecording = false ∧ initialManager.examRoomId = none ∧
    (registerChunk initialManager 0 0 0 0 ⟨7⟩ "t").1.db.map Chunk.chunkId = ["null_null_0"] ∧
    (registerChunk initialManager 0 0 0 0 ⟨7⟩ "t").2.chunkId = "null_null_0" := by
  refine ⟨rfl, rfl, by decide, by decide⟩

/-- C3 amended: `registerChunk` performs no session-activity check; called while no
session is active it succeeds, constructing and persisting a chunk record whose
key renders the missing identifiers as the string `null`. -/
theorem registerChunk_no_session (st : MState) (i : Nat) (s1 e1 d1 : Int) (b : Blob)
    (n : String) (h1 : st.examRoomId = none) (h2 : st.studentId = none) :
    (registerChunk st i s1 e1 d1 b n).2.chunkId = chunkKey none none i ∧
    (registerChunk st i s1 e1 d1 b n).2.roomId = "null" ∧
    ∃ c ∈ (registerChunk st i s1 e1 d1 b n).1.db,
      c.chunkId = chunkKey none none i ∧ c.status = "stored" := by
  refine ⟨by simp [registerChunk, h1, h2], by simp [registerChunk, h1, h2, jsStr], ?_⟩
  simp only [registerChunk, saveChunk, putChunk, h1, h2]
  exact ⟨_, List.mem_append_right _ (List.mem_singleton.mpr rfl), rfl, rfl⟩

/-- Witness for C3 amended: the fresh manager has no session identifiers, and
registration at index 0 persists the record keyed by the null identifiers. -/
theorem registerChunk_no_session_witness :
    (registerChunk initialManager 0 0 0 0 ⟨7⟩ "u").2.chunkId = chunkKey none none 0 :=
  (registerChunk_no_session initialManager 0 0 0 0 ⟨7⟩ "u" rfl rfl).1

/-! ## C4: timer handle after the cleanup callback -/

/-- C4 counterexample: a fired cleanup for a session with no chunks leaves the
timer handle in place — the callback returns before the handle-delete statement —
contradicting the claim that the handle is cleared in every outcome. -/
theorem cleanup_timer_cex :
    getChunksByRoom stT.db "examA" = [] ∧
    (cleanupFire stT "examA" false).cleanupTimers = ["examA"] := by
  exact ⟨rfl, rfl⟩

/-- C4 amended: the timer handle is cleared only on the two successful delete
paths; when the session has no chunks, or when the sweep fails with a storage
error (caught and logged), the handle is left untouched. -/
theorem cleanup_timer_amended (st : MState) (r : String) :
    ((cleanupFire st r true).cleanupTimers = st.cleanupTimers)
    ∧ (getChunksByRoom st.db r = [] →
        (cleanupFire st r false).cleanupTimers = st.cleanupTimers)
    ∧ (getChunksByRoom st.db r ≠ [] →
        (cleanupFire st r false).cleanupTimers =
          st.cleanupTimers.filter (fun x => x != r)) := by
  refine ⟨rfl, ?_, ?_⟩
  · intro h
    simp [cleanupFire, h]
  · intro h
    have hne : (getChunksByRoom st.db r).isEmpty = false := by
      simpa [List.isEmpty_iff] using h
    simp only [cleanupFire, Bool.false_eq_true, if_false, hne]
    cases (getChunksByRoom st.db r).any (fun c => c.status == "uploaded") <;> simp

/-- Witness for C4 amended: firing a cleanup for a room that does own chunks
removes exactly that room's timer handle. -/
theorem cleanup_timer_amended_witness :
    (cleanupFire stC2 "examA" false).cleanupTimers =
      stC2.cleanupTimers.filter (fun x => x != "examA") :=
  (cleanup_timer_amended stC2 "examA").2.2 (by decide)

/-! ## C2: what the fired cleanup sweep deletes -/

/-- C2: when the scheduled cleanup fires for a session owning at least one chunk:
if no chunk of the session is `uploaded`, every chunk of the session is deleted
(none with that room id remains); if at least one is `uploaded`, a chunk of the
session remains exactly when its status is `uploaded` — and it remains as the very
same record, so its recorded `uploadedUrl` is unchanged. -/
theorem cleanupFire_deletes (st : MState) (r : String) (hnd : nodupIds st.db)
    (hne : getChunksByRoom st.db r ≠ []) :
    ((¬ ∃ c ∈ getChunksByRoom st.db r, c.status = "uploaded") →
      ∀ x ∈ (cleanupFire st r false).db, x.roomId ≠ r) ∧
    ((∃ c ∈ getChunksByRoom st.db r, c.status = "uploaded") →
      ∀ x ∈ st.db, x.roomId = r →
        (x ∈ (cleanupFire st r false).db ↔ x.status = "uploaded")) := by
  have hemp : (getChunksByRoom st.db r).isEmpty = false := by
    rw [← Bool.not_eq_true, List.isEmpty_iff]
    exact hne
  constructor
  · intro hno
    have hb : (getChunksByRoom st.db r).any (fun c => c.status == "uploaded") = false := by
      rw [List.any_eq_false]
      intro c hc hcs
      exact hno ⟨c, hc, by simpa using hcs⟩
    have hred : (cleanupFire st r false).db =
        st.db.filter
          (fun x => !((getChunksByRoom st.db r).any (fun c => c.chunkId == x.chunkId))) := by
      simp [cleanupFire, hemp, hb, deleteChunksByRoom]
    intro x hx hxr
    rw [hred] at hx
    obtain ⟨hxdb, hfb⟩ := List.mem_filter.mp hx
    rw [Bool.not_eq_true', List.any_eq_false] at hfb
    exact hfb x (mem_getChunksByRoom.mpr ⟨hxdb, hxr⟩) (by simp)
  · intro hex
    obtain ⟨c, hc, hcs⟩ := hex
    have hb : (getChunksByRoom st.db r).any (fun c => c.status == "uploaded") = true :=
      List.any_eq_true.mpr ⟨c, hc, by simpa using hcs⟩
    have hred : (cleanupFire st r false).db =
        st.db.filter
          (fun x => !(((getChunksByRoom st.db r).filter
            (fun c => c.status != "uploaded")).any (fun c => c.chunkId == x.chunkId))) := by
      simp [cleanupFire, hemp, hb, deleteUnuploadedChunks]
    intro x hxdb hxr
    rw [hred]
    constructor
    · intro hxin
      obtain ⟨_, hfb⟩ := List.mem_filter.mp hxin
      rw [Bool.not_eq_true', List.any_eq_false] at hfb
      by_contra hxs
      refine hfb x (List.mem_filter.mpr ⟨mem_getChunksByRoom.mpr ⟨hxdb, hxr⟩, ?_⟩) (by simp)
      rw [bne_iff_ne]
      exact hxs
    · intro hxs
      refine List.mem_filter.mpr ⟨hxdb, ?_⟩
      rw [Bool.not_eq_true', List.any_eq_false]
      intro y hy hyid
      obtain ⟨hycs, hybne⟩ := List.mem_filter.mp hy
      rw [bne_iff_ne] at hybne
      obtain ⟨hydb, _⟩ := mem_getChunksByRoom.mp hycs
      have hyx : y = x :=
        List.inj_on_of_nodup_map hnd hydb hxdb (by simpa using hyid)
      rw [hyx] at hybne
      exact hybne hxs

/-- Witness for C2: in a session with one stored and one uploaded chunk, the fired
cleanup keeps the uploaded record (reference intact, being the same record). -/
theorem cleanupFire_deletes_witness :
    up1 ∈ (cleanupFire stC2 "examA" false).db :=
  ((cleanupFire_deletes stC2 "examA" (by decide) (by decide)).2
    ⟨up1, by decide, rfl⟩ up1 (by decide) rfl).mpr rfl

/-! ## The successful upload fetch, shared by C5 and C9 -/

theorem getChunkForUpload_ok (st : MState) (r : String) (c : Chunk) (n : String)
    (hres : (resolveRoomId st).2 = some r) (hc : c ∈ st.db) (hroom : c.roomId = r)
    (huniq : ∀ x ∈ st.db, x.roomId = r → x.chunkIndex = c.chunkIndex → x = c)
    (hnd : nodupIds st.db) :
    getChunkForUpload st c.chunkIndex n =
      ({ (resolveRoomId st).1 with
          db := putChunk st.db { c with status := "uploading", updatedAt := some n } },
       .ok { chunkId := c.chunkId, chunkIndex := c.chunkIndex, roomId := c.roomId,
             studentId := c.studentId, startTime := c.startTime, endTime := c.endTime,
             duration := c.duration, events := c.events, blob := c.blob,
             sizeBytes := c.sizeBytes }) := by
  have hdb : (resolveRoomId st).1.db = st.db := resolveRoomId_db st
  have hfind1 : (getChunksByRoom st.db r).find? (fun x => x.chunkIndex == c.chunkIndex) =
      some c := by
    apply find?_eq_of_mem_unique (mem_getChunksByRoom.mpr ⟨hc, hroom⟩) (by simp)
    intro x hxmem hpx
    obtain ⟨hxdb, hxr⟩ := mem_getChunksByRoom.mp hxmem
    exact huniq x hxdb hxr (by simpa using hpx)
  have hfind2 : st.db.find? (fun x => x.chunkId == c.chunkId) = some c := by
    apply find?_eq_of_mem_unique hc (by simp)
    intro x hx hpx
    exact List.inj_on_of_nodup_map hnd hx hc (by simpa using hpx)
  simp only [getChunkForUpload, hres, hdb, hfind1, updateChunkStatus, hfind2]
  rfl

/-! ## C5: fetching for upload overwrites the status unguardedly -/

/-- C5: for an existing chunk of the resolved session (its index unique within the
room, as the registration key discipline guarantees), fetching it for upload
succeeds and leaves the stored record with status `uploading` — with no hypothesis
on the prior status, so the overwrite also happens when the chunk was already
`uploading` or `uploaded`. -/
theorem chunkForUpload_sets_uploading (st : MState) (r : String) (c : Chunk) (n : String)
    (hres : (resolveRoomId st).2 = some r) (hc : c ∈ st.db) (hroom : c.roomId = r)
    (huniq : ∀ x ∈ st.db, x.roomId = r → x.chunkIndex = c.chunkIndex → x = c)
    (hnd : nodupIds st.db) :
    (getChunkForUpload st c.chunkIndex n).2 =
      .ok { chunkId := c.chunkId, chunkIndex := c.chunkIndex, roomId := c.roomId,
            studentId := c.studentId, startTime := c.startTime, endTime := c.endTime,
            duration := c.duration, events := c.events, blob := c.blob,
            sizeBytes := c.sizeBytes } ∧
    ∀ x ∈ (getChunkForUpload st c.chunkIndex n).1.db,
      x.chunkId = c.chunkId → x.status = "uploading" := by
  have h := getChunkForUpload_ok st r c n hres hc hroom huniq hnd
  rw [h]
  refine ⟨rfl, ?_⟩
  intro x hx hid
  have hx2 : x = { c with status := "uploading", updatedAt := some n } :=
    mem_putChunk_same_id hx hid
  rw [hx2]

/-- Witness for C5: fetching the already-uploaded chunk at index 0 still flips the
stored record to `uploading`. -/
theorem chunkForUpload_sets_uploading_witness :
    (getChunkForUpload stC5 0 "t").2 =
      .ok { chunkId := up1.chunkId, chunkIndex := up1.chunkIndex, roomId := up1.roomId,
            studentId := up1.studentId, startTime := up1.startTime, endTime := up1.endTime,
            duration := up1.duration, events := up1.events, blob := up1.blob,
            sizeBytes := up1.sizeBytes } :=
  (chunkForUpload_sets_uploading stC5 "examA" up1 "t" rfl (by decide) rfl
    (by decide) (by decide)).1

/-! ## C7: the two failure modes of the upload fetch -/

/-- C7: when no session id can be resolved from memory or durable storage, the
upload fetch fails with the state error and changes nothing; when a session id
resolves but no chunk of that room carries the requested index, it fails with the
not-found error and leaves the chunk store untouched. -/
theorem chunkForUpload_errors (st : MState) (i : Nat) (n : String) :
    ((resolveRoomId st).2 = none →
      (getChunkForUpload st i n).2 =
        .error (.stateError "No active exam room - cannot upload chunk") ∧
      (getChunkForUpload st i n).1 = st) ∧
    (∀ r, (resolveRoomId st).2 = some r →
      (getChunksByRoom st.db r).find? (fun c => c.chunkIndex == i) = none →
      (getChunkForUpload st i n).2 =
        .error (.notFound ("Chunk " ++ toString i ++ " not found")) ∧
      (getChunkForUpload st i n).1.db = st.db) := by
  constructor
  · intro h
    have h1 := resolveRoomId_of_none st h
    constructor
    · simp [getChunkForUpload, h, h1]
    · simp [getChunkForUpload, h, h1]
  · intro r hres hfind
    have hdb : (resolveRoomId st).1.db = st.db := resolveRoomId_db st
    constructor
    · simp [getChunkForUpload, hres, hdb, hfind]
    · simp [getChunkForUpload, hres, hdb, hfind]

/-- Witness for C7: requesting index 9, which no chunk of the resolved room
carries, fails with the not-found error and leaves the store as it was. -/
theorem chunkForUpload_errors_witness :
    (getChunkForUpload stC5 9 "t").2 =
      .error (.notFound ("Chunk " ++ toString 9 ++ " not found")) ∧
    (getChunkForUpload stC5 9 "t").1.db = stC5.db :=
  (chunkForUpload_errors stC5 9 "t").2 "examA" rfl (by decide)

/-! ## C9: frame of a status update with a null url -/

/-- C9: a status update carrying a null url rewrites only `status` and `updatedAt`
— the stored record equals the old one updated in exactly those two fields, so
`uploadedUrl`, payload, events, timing and size fields are untouched; in
particular, fetching an already-uploaded chunk for upload (whose transition to
`uploading` carries a null url) preserves its recorded `uploadedUrl`. -/
theorem updateChunkStatus_null_url_frame :
    (∀ (db : List Chunk) (k s2 n : String) (c : Chunk),
      db.find? (fun x => x.chunkId == k) = some c →
      updateChunkStatus db k s2 none n =
        .ok (putChunk db { c with status := s2, updatedAt := some n },
             { c with status := s2, updatedAt := some n })) ∧
    (∀ (st : MState) (r : String) (c : Chunk) (n : String),
      (resolveRoomId st).2 = some r → c ∈ st.db → c.roomId = r →
      (∀ x ∈ st.db, x.roomId = r → x.chunkIndex = c.chunkIndex → x = c) →
      nodupIds st.db → c.status = "uploaded" →
      ∀ x ∈ (getChunkForUpload st c.chunkIndex n).1.db,
        x.chunkId = c.chunkId → x.uploadedUrl = c.uploadedUrl) := by
  constructor
  · intro db k s2 n c hfind
    simp only [updateChunkStatus, hfind]
    rfl
  · intro st r c n hres hc hroom huniq hnd _hup x hx hid
    rw [getChunkForUpload_ok st r c n hres hc hroom huniq hnd] at hx
    have hx2 : x = { c with status := "uploading", updatedAt := some n } :=
      mem_putChunk_same_id hx hid
    rw [hx2]

/-- Witness for C9: marking the stored chunk `uploading` with a null url keeps
every other field, and fetching the uploaded chunk keeps its reference. -/
theorem updateChunkStatus_null_url_frame_witness :
    updateChunkStatus [c0] "k" "uploading" none "n2" =
      .ok (putChunk [c0] { c0 with status := "uploading", updatedAt := some "n2" },
           { c0 with status := "uploading", updatedAt := some "n2" }) :=
  updateChunkStatus_null_url_frame.1 [c0] "k" "uploading" "n2" c0 (by decide)

/-! ## C6: repeated confirm-uploaded calls -/

theorem markChunkUploaded_step (db : List Chunk) (k rf n : String) (c : Chunk)
    (hfind : db.find? (fun x => x.chunkId == k) = some c) :
    markChunkUploaded db k rf n =
      .ok (putChunk db
        { c with status := "uploaded",
                 uploadedUrl := if jsTruthy (some rf) then some rf else c.uploadedUrl,
                 updatedAt := some n }) := by
  simp only [markChunkUploaded, updateChunkStatus, hfind]

theorem find?_putChunk_of_id {db : List Chunk} {k : String} {c2 : Chunk}
    (hid : c2.chunkId = k) :
    (putChunk db c2).find? (fun x => x.chunkId == k) = some c2 := by
  rw [← hid]
  exact find?_putChunk db c2

/-- C6 amended: a sequence of confirm-uploaded calls always ends with the chunk in
status `uploaded`, and the recorded reference is the last-supplied one provided
that last reference is nonempty; a JS-falsy empty-string reference does not
overwrite the stored reference (the `if (url)` guard skips it). -/
theorem confirmUploaded_last_ref (db : List Chunk) (k n rlast : String)
    (rs : List String) (c : Chunk)
    (hfind : db.find? (fun x => x.chunkId == k) = some c) (hlast : rlast ≠ "") :
    finalRef db k n (rs ++ [rlast]) = some ("uploaded", some rlast) := by
  induction rs generalizing db c with
  | nil =>
    have hk : c.chunkId = k := by simpa using List.find?_some hfind
    have htr : jsTruthy (some rlast) = true := by
      simpa [jsTruthy] using hlast
    simp only [List.nil_append, finalRef, confirmAll,
      markChunkUploaded_step db k rlast n c hfind, htr]
    rw [find?_putChunk_of_id (by simpa using hk)]
    simp [htr]
  | cons r rs ih =>
    have hk : c.chunkId = k := by simpa using List.find?_some hfind
    have hstep := markChunkUploaded_step db k r n c hfind
    have hfind2 :
        (putChunk db
          { c with status := "uploaded",
                   uploadedUrl := if jsTruthy (some r) then some r else c.uploadedUrl,
                   updatedAt := some n }).find? (fun x => x.chunkId == k) =
        some
          { c with status := "uploaded",
                   uploadedUrl := if jsTruthy (some r) then some r else c.uploadedUrl,
                   updatedAt := some n } :=
      find?_putChunk_of_id (by simpa using hk)
    have hred : finalRef db k n ((r :: rs) ++ [rlast]) =
        finalRef
          (putChunk db
            { c with status := "uploaded",
                     uploadedUrl := if jsTruthy (some r) then some r else c.uploadedUrl,
                     updatedAt := some n }) k n (rs ++ [rlast]) := by
      simp only [List.cons_append, finalRef, confirmAll, hstep]
      rfl
    rw [hred]
    exact ih _ _ hfind2

/-- C6 counterexample: confirming with `r1` and then with the empty string leaves
the recorded reference at `r1`, not at the last-supplied (empty) reference, so the
claim fails for an empty-string reference. -/
theorem confirmUploaded_last_ref_cex :
    finalRef [c0] "k" "t" ["r1", ""] = some ("uploaded", some "r1") ∧
    some "r1" ≠ some "" := by
  exact ⟨by decide, by decide⟩

/-- Witness for C6 amended: two confirmations with distinct nonempty references
leave status `uploaded` and the second reference recorded. -/
theorem confirmUploaded_last_ref_witness :
    finalRef [c0] "k" "t" (["a"] ++ ["b"]) = some ("uploaded", some "b") :=
  confirmUploaded_last_ref [c0] "k" "t" "b" ["a"] c0 (by decide) (by decide)

/-! ## C8: key uniqueness, overwrite on re-registration, ordered listing -/

theorem pairwise_ne_index_getChunksByRoom (db : List Chunk) (r s : String)
    (hnd : nodupIds db)
    (hwf : ∀ x ∈ db, x.roomId = r →
      x.chunkId = chunkKey (some r) (some s) x.chunkIndex) :
    List.Pairwise (fun a c => a.chunkIndex ≠ c.chunkIndex) (getChunksByRoom db r) := by
  have hdbnodup : db.Nodup := List.Nodup.of_map Chunk.chunkId hnd
  have hsub : (db.filter (fun c => c.roomId == r)).Sublist db := List.filter_sublist db
  have hfnodup : (db.filter (fun c => c.roomId == r)).Nodup :=
    List.Nodup.sublist hsub hdbnodup
  have hinj : ∀ x ∈ db.filter (fun c => c.roomId == r),
      ∀ y ∈ db.filter (fun c => c.roomId == r), x.chunkIndex = y.chunkIndex → x = y := by
    intro x hx y hy hxy
    obtain ⟨hxdb, hxr⟩ := List.mem_filter.mp hx
    obtain ⟨hydb, hyr⟩ := List.mem_filter.mp hy
    have hxid := hwf x hxdb (by simpa using hxr)
    have hyid := hwf y hydb (by simpa using hyr)
    refine List.inj_on_of_nodup_map hnd hxdb hydb ?_
    rw [hxid, hyid, hxy]
  have hmapnodup : ((db.filter (fun c => c.roomId == r)).map Chunk.chunkIndex).Nodup :=
    List.Nodup.map_on hinj hfnodup
  have hpair : List.Pairwise (fun a c => a.chunkIndex ≠ c.chunkIndex)
      (db.filter (fun c => c.roomId == r)) := List.pairwise_map.mp hmapnodup
  have hperm := List.perm_insertionSort chunkLe (db.filter (fun c => c.roomId == r))
  exact (hperm.pairwise_iff (fun h => h.symm)).mpr hpair

/-- C8: with an active session (room `r`, subject `s`) whose store respects the
key discipline (distinct primary keys; a room record's key is the composite of
room, subject and index) and already holding a record for index `i`,
re-registering index `i` leaves exactly one record under that key — carrying the
new registration's data (payload, save time, fresh `stored` status) — and the
room listing still has pairwise-distinct indices, sorted ascending by index. -/
theorem registerChunk_overwrites (st : MState) (r s : String) (i : Nat)
    (s1 e1 d1 : Int) (b : Blob) (n : String)
    (hsess : st.examRoomId = some r) (hstud : st.studentId = some s)
    (hnd : nodupIds st.db)
    (hwf : ∀ x ∈ st.db, x.roomId = r →
      x.studentId = s ∧ x.chunkId = chunkKey (some r) (some s) x.chunkIndex)
    (_hold : ∃ old ∈ st.db, old.chunkId = chunkKey (some r) (some s) i) :
    ((registerChunk st i s1 e1 d1 b n).1.db.filter
        (fun x => x.chunkId == chunkKey (some r) (some s) i)).length = 1 ∧
    (∀ x ∈ (registerChunk st i s1 e1 d1 b n).1.db,
      x.chunkId = chunkKey (some r) (some s) i →
        x.chunkIndex = i ∧ x.status = "stored" ∧ x.blob = b ∧ x.savedAt = n) ∧
    List.Sorted chunkLe (getChunksByRoom (registerChunk st i s1 e1 d1 b n).1.db r) ∧
    List.Pairwise (fun a c => a.chunkIndex ≠ c.chunkIndex)
      (getChunksByRoom (registerChunk st i s1 e1 d1 b n).1.db r) := by
  have hdb2 : (registerChunk st i s1 e1 d1 b n).1.db =
      putChunk st.db
        { chunkId := chunkKey (some r) (some s) i, chunkIndex := i, roomId := r,
          studentId := s, startTime := s1, endTime := e1, duration := d1,
          status := "stored",
          events := st.events.filter (fun e =>
            decide (i * CHUNK_DURATION_MS ≤ e.timestamp) &&
            decide (e.timestamp < (i + 1) * CHUNK_DURATION_MS)),
          blob := b, sizeBytes := b.size, savedAt := n } := by
    simp [registerChunk, saveChunk, hsess, hstud, jsStr]
  rw [hdb2]
  have hwf2 : ∀ x ∈ putChunk st.db
      { chunkId := chunkKey (some r) (some s) i, chunkIndex := i, roomId := r,
        studentId := s, startTime := s1, endTime := e1, duration := d1,
        status := "stored",
        events := st.events.filter (fun e =>
          decide (i * CHUNK_DURATION_MS ≤ e.timestamp) &&
          decide (e.timestamp < (i + 1) * CHUNK_DURATION_MS)),
        blob := b, sizeBytes := b.size, savedAt := n },
      x.roomId = r → x.chunkId = chunkKey (some r) (some s) x.chunkIndex := by
    intro x hx hxr
    rcases List.mem_append.mp hx with h | h
    · exact (hwf x (List.mem_filter.mp h).1 hxr).2
    · have hxrec := List.mem_singleton.mp h
      rw [hxrec]
  refine ⟨?_, ?_, ?_, ?_⟩
  · have hfil := filter_putChunk_self st.db
      { chunkId := chunkKey (some r) (some s) i, chunkIndex := i, roomId := r,
        studentId := s, startTime := s1, endTime := e1, duration := d1,
        status := "stored",
        events := st.events.filter (fun e =>
          decide (i * CHUNK_DURATION_MS ≤ e.timestamp) &&
          decide (e.timestamp < (i + 1) * CHUNK_DURATION_MS)),
        blob := b, sizeBytes := b.size, savedAt := n }
    exact congrArg List.length hfil
  · intro x hx hid
    have hxrec := mem_putChunk_same_id hx hid
    rw [hxrec]
    exact ⟨rfl, rfl, rfl, rfl⟩
  · exact List.sorted_insertionSort chunkLe _
  · exact pairwise_ne_index_getChunksByRoom _ r s
      (nodupIds_putChunk _ hnd) hwf2

/-- Witness for C8: re-registering index 0 of the session that already stored it
leaves exactly one record under the composite key. -/
theorem registerChunk_overwrites_witness :
    ((registerChunk stC8 0 0 0 0 ⟨9⟩ "n2").1.db.filter
        (fun x => x.chunkId == chunkKey (some "examA") (some "stud1") 0)).length = 1 :=
  (registerChunk_overwrites stC8 "examA" "stud1" 0 0 0 0 ⟨9⟩ "n2" rfl rfl (by decide)
    (by decide) ⟨up1, by decide, by decide⟩).1

/-! ## C10: the totalChunks count returned by ending the session -/

theorem applyRegisters_ledger (reqs : List RegReq) : ∀ st : MState,
    (applyRegisters st reqs).chunkMetadata.length =
      st.chunkMetadata.length + reqs.length := by
  induction reqs with
  | nil => intro st; simp [applyRegisters]
  | cons a l ih =>
    intro st
    rw [applyRegisters, ih]
    simp [registerChunk, saveChunk]
    omega

theorem applyRegisters_nodup (reqs : List RegReq) : ∀ st : MState,
    nodupIds st.db → nodupIds (applyRegisters st reqs).db := by
  induction reqs with
  | nil => intro st h; simpa [applyRegisters] using h
  | cons a l ih =>
    intro st h
    rw [applyRegisters]
    exact ih _ (nodupIds_putChunk _ h)

/-- C10: ending a session reports `totalChunks` equal to the number of
`registerChunk` calls made since the session started in this process —
re-registrations of the same index count separately — while the durable store
keeps distinct primary keys, hence at most one record per re-registered index. -/
theorem stopRecording_totalChunks (st0 : MState) (room student : String) (nowMs : Nat)
    (nowIso : String) (reqs : List RegReq) (endMs : Nat) (endIso : String)
    (hnd : nodupIds st0.db) :
    (stopRecording (applyRegisters (initRecording st0 room student nowMs nowIso).1 reqs)
        endMs endIso).2 = reqs.length ∧
    nodupIds (applyRegisters (initRecording st0 room student nowMs nowIso).1 reqs).db := by
  constructor
  · have hlen := applyRegisters_ledger reqs (initRecording st0 room student nowMs nowIso).1
    have hinit : (initRecording st0 room student nowMs nowIso).1.chunkMetadata =
        ([] : List ChunkData) := rfl
    have hstop : (stopRecording (applyRegisters
          (initRecording st0 room student nowMs nowIso).1 reqs) endMs endIso).2 =
        ((applyRegisters (initRecording st0 room student nowMs nowIso).1 reqs).chunkMetadata).length := rfl
    rw [hstop, hlen, hinit]
    simp
  · exact applyRegisters_nodup reqs _ hnd

/-- Witness for C10: registering index 0 twice yields `totalChunks = 2`. -/
theorem stopRecording_totalChunks_witness :
    (stopRecording (applyRegisters (initRecording initialManager "examA" "stud1" 0 "t").1
        [req0, req0]) 99 "u").2 = 2 :=
  (stopRecording_totalChunks initialManager "examA" "stud1" 0 "t" [req0, req0] 99 "u"
    (by decide)).1
